import Mathlib

/-!
Shallow embedding of the "Finetuning Torchvision Models" tutorial code.

Two components are embedded, following the source notebook:
* the Architecture Adapter: `set_parameter_requires_grad` and
  `initialize_model`, which load a pretrained torchvision network,
  optionally freeze its parameters, and substitute the final
  classification layer(s);
* the Training Loop Driver: `train_model`, which runs a train phase and a
  val phase per epoch, tracks the best validation accuracy and the weight
  snapshot that attained it, and finally loads the best weights back.

The torchvision model zoo, the autodiff engine, the optimizer and the
dataloaders are opaque external collaborators and appear as parameters of
the embedding (`TorchvisionModels`, `LoopEnv`).  Python floats are
modelled as exact rationals.
-/

namespace Finetune

/-! ### Parameters and layers -/

/-- A single named tensor parameter, carrying its `requires_grad` flag. -/
structure Param where
  pname : String
  requiresGrad : Bool
deriving DecidableEq, Repr

/-- `nn.Linear`: a fully connected layer with weight and bias parameters. -/
structure Linear where
  in_features : Nat
  out_features : Nat
  weight : Param
  bias : Param
deriving DecidableEq, Repr

/-- `nn.Linear(inF, outF)`: newly created parameters have
`requires_grad = True` by construction. -/
def nnLinear (inF outF : Nat) : Linear :=
  { in_features := inF, out_features := outF,
    weight := { pname := "new.weight", requiresGrad := true },
    bias := { pname := "new.bias", requiresGrad := true } }

/-- `nn.Conv2d`: a convolution layer (used for the squeezenet classifier). -/
structure Conv2d where
  in_channels : Nat
  out_channels : Nat
  kernel_size : Nat × Nat
  stride : Nat × Nat
  weight : Param
  bias : Param
deriving DecidableEq, Repr

/-- `nn.Conv2d(inC, outC, kernel_size, stride)`: new parameters are
trainable by construction. -/
def nnConv2d (inC outC : Nat) (k s : Nat × Nat) : Conv2d :=
  { in_channels := inC, out_channels := outC, kernel_size := k, stride := s,
    weight := { pname := "new.weight", requiresGrad := true },
    bias := { pname := "new.bias", requiresGrad := true } }

/-- The final classification layer of a torchvision model: a Linear layer
(`fc`, `classifier`, `classifier[6]`) or, for squeezenet, a 1x1 Conv2d
(`classifier[1]`). -/
inductive HeadLayer where
  | linear (l : Linear)
  | conv (c : Conv2d)
deriving DecidableEq, Repr

/-- The parameters of a head layer, in `model.parameters()` order. -/
def HeadLayer.params : HeadLayer → List Param
  | .linear l => [l.weight, l.bias]
  | .conv c => [c.weight, c.bias]

/-- The input width of the head layer (`.in_features` / `.in_channels`),
as read by `initialize_model` from the loaded pretrained structure. -/
def HeadLayer.inWidth : HeadLayer → Nat
  | .linear l => l.in_features
  | .conv c => c.in_channels

/-- The output width of the head layer (`.out_features` / `.out_channels`). -/
def HeadLayer.outWidth : HeadLayer → Nat
  | .linear l => l.out_features
  | .conv c => c.out_channels

/-! ### Torchvision models -/

/-- A torchvision model, abstracted to the parts `initialize_model`
touches: the backbone parameters (every pre-existing parameter outside the
final classification layer(s)), the final classification head, the
optional `AuxLogits.fc` auxiliary head (present on inception_v3), and the
squeezenet `num_classes` attribute. -/
structure TVModel where
  features : List Param
  head : HeadLayer
  auxHead : Option Linear
  num_classes_attr : Option Nat
deriving DecidableEq, Repr

/-- `model.parameters()`: all parameters of the model. -/
def TVModel.parameters (m : TVModel) : List Param :=
  m.features ++
    (match m.auxHead with
     | some l => [l.weight, l.bias]
     | none => []) ++
    m.head.params

/-- `param.requires_grad = False`. -/
def Param.freeze (p : Param) : Param :=
  { p with requiresGrad := false }

/-- Freeze both parameters of a Linear layer. -/
def Linear.freeze (l : Linear) : Linear :=
  { l with weight := l.weight.freeze, bias := l.bias.freeze }

/-- Freeze both parameters of a head layer. -/
def HeadLayer.freeze : HeadLayer → HeadLayer
  | .linear l => .linear l.freeze
  | .conv c => .conv { c with weight := c.weight.freeze, bias := c.bias.freeze }

/-- `set_parameter_requires_grad(model, feature_extracting)`: when
`feature_extracting` is true, set `requires_grad = False` on every
parameter of the model; otherwise do nothing. -/
def set_parameter_requires_grad (m : TVModel) (feature_extracting : Bool) : TVModel :=
  if feature_extracting then
    { features := m.features.map Param.freeze
      head := m.head.freeze
      auxHead := m.auxHead.map Linear.freeze
      num_classes_attr := m.num_classes_attr }
  else
    m

/-- The torchvision model zoo: the six pretrained-model constructors the
notebook calls, each taking the `pretrained` flag.  An opaque external
collaborator of the adapter. -/
structure TorchvisionModels where
  resnet18 : Bool → TVModel
  alexnet : Bool → TVModel
  vgg11_bn : Bool → TVModel
  squeezenet1_0 : Bool → TVModel
  densenet121 : Bool → TVModel
  inception_v3 : Bool → TVModel

/-- `initialize_model(model_name, num_classes, feature_extract,
use_pretrained)`: dispatch on the family name; load the pretrained
network, optionally freeze all of its parameters, substitute the final
classification layer(s) with freshly initialized ones sized to
`num_classes`, and return the model with its required input resolution.
An unrecognized name reaches the `else` branch, which prints and calls
`exit()`, modelled as an error value. -/
def initialize_model (models : TorchvisionModels) (model_name : String)
    (num_classes : Nat) (feature_extract : Bool) (use_pretrained : Bool) :
    Except String (TVModel × Nat) :=
  if model_name = "resnet" then
    let model_ft := models.resnet18 use_pretrained
    let model_ft := set_parameter_requires_grad model_ft feature_extract
    let num_ftrs := model_ft.head.inWidth
    let model_ft := { model_ft with head := .linear (nnLinear num_ftrs num_classes) }
    .ok (model_ft, 224)
  else if model_name = "alexnet" then
    let model_ft := models.alexnet use_pretrained
    let model_ft := set_parameter_requires_grad model_ft feature_extract
    let num_ftrs := model_ft.head.inWidth
    let model_ft := { model_ft with head := .linear (nnLinear num_ftrs num_classes) }
    .ok (model_ft, 224)
  else if model_name = "vgg" then
    let model_ft := models.vgg11_bn use_pretrained
    let model_ft := set_parameter_requires_grad model_ft feature_extract
    let num_ftrs := model_ft.head.inWidth
    let model_ft := { model_ft with head := .linear (nnLinear num_ftrs num_classes) }
    .ok (model_ft, 224)
  else if model_name = "squeezenet" then
    let model_ft := models.squeezenet1_0 use_pretrained
    let model_ft := set_parameter_requires_grad model_ft feature_extract
    let model_ft := { model_ft with
      head := .conv (nnConv2d 512 num_classes (1, 1) (1, 1))
      num_classes_attr := some num_classes }
    .ok (model_ft, 224)
  else if model_name = "densenet" then
    let model_ft := models.densenet121 use_pretrained
    let model_ft := set_parameter_requires_grad model_ft feature_extract
    let num_ftrs := model_ft.head.inWidth
    let model_ft := { model_ft with head := .linear (nnLinear num_ftrs num_classes) }
    .ok (model_ft, 224)
  else if model_name = "inception" then
    let model_ft := models.inception_v3 use_pretrained
    let model_ft := set_parameter_requires_grad model_ft feature_extract
    let aux_ftrs :=
      match model_ft.auxHead with
      | some l => l.in_features
      | none => 0
    let model_ft := { model_ft with auxHead := some (nnLinear aux_ftrs num_classes) }
    let num_ftrs := model_ft.head.inWidth
    let model_ft := { model_ft with head := .linear (nnLinear num_ftrs num_classes) }
    .ok (model_ft, 299)
  else
    .error "Invalid model name, exiting..."

/-- Facts about the torchvision zoo that the notebook relies on: a freshly
loaded model has every parameter with `requires_grad = True` (the torch
default), only inception_v3 has an auxiliary head, and the documented
input-feature widths of the final layers (512, 4096, 4096, 512, 1024 and
768/2048). -/
structure ZooFacts (z : TorchvisionModels) : Prop where
  resnet_grad : ∀ p, ∀ q ∈ (z.resnet18 p).parameters, q.requiresGrad = true
  alexnet_grad : ∀ p, ∀ q ∈ (z.alexnet p).parameters, q.requiresGrad = true
  vgg_grad : ∀ p, ∀ q ∈ (z.vgg11_bn p).parameters, q.requiresGrad = true
  squeezenet_grad : ∀ p, ∀ q ∈ (z.squeezenet1_0 p).parameters, q.requiresGrad = true
  densenet_grad : ∀ p, ∀ q ∈ (z.densenet121 p).parameters, q.requiresGrad = true
  inception_grad : ∀ p, ∀ q ∈ (z.inception_v3 p).parameters, q.requiresGrad = true
  resnet_aux : ∀ p, (z.resnet18 p).auxHead = none
  alexnet_aux : ∀ p, (z.alexnet p).auxHead = none
  vgg_aux : ∀ p, (z.vgg11_bn p).auxHead = none
  squeezenet_aux : ∀ p, (z.squeezenet1_0 p).auxHead = none
  densenet_aux : ∀ p, (z.densenet121 p).auxHead = none
  inception_aux : ∀ p, ((z.inception_v3 p).auxHead.map Linear.in_features) = some 768
  resnet_width : ∀ p, (z.resnet18 p).head.inWidth = 512
  alexnet_width : ∀ p, (z.alexnet p).head.inWidth = 4096
  vgg_width : ∀ p, (z.vgg11_bn p).head.inWidth = 4096
  squeezenet_width : ∀ p, (z.squeezenet1_0 p).head.inWidth = 512
  densenet_width : ∀ p, (z.densenet121 p).head.inWidth = 1024
  inception_width : ∀ p, (z.inception_v3 p).head.inWidth = 2048

/-- The trainable parameter set of a model: the parameters the optimizer
is built from (`requires_grad == True`). -/
def trainableParams (m : TVModel) : List Param :=
  m.parameters.filter (fun q => q.requiresGrad)

/-- The parameters of the classification head layer(s) of a model,
auxiliary head included when present. -/
def headParamsOf (m : TVModel) : List Param :=
  (match m.auxHead with
   | some l => [l.weight, l.bias]
   | none => []) ++ m.head.params

/-! ### A concrete sample zoo (used to exercise the adapter) -/

/-- A tiny stand-in backbone: two pretrained parameters, trainable by
default as torch loads them. -/
def sampleBackbone : List Param :=
  [{ pname := "conv1.weight", requiresGrad := true },
   { pname := "bn1.weight", requiresGrad := true }]

/-- A sample pretrained model with a Linear head of the given input
width and 1000 Imagenet outputs. -/
def sampleLinearModel (inF : Nat) : TVModel :=
  { features := sampleBackbone
    head := .linear
      { in_features := inF, out_features := 1000,
        weight := { pname := "fc.weight", requiresGrad := true },
        bias := { pname := "fc.bias", requiresGrad := true } }
    auxHead := none
    num_classes_attr := none }

/-- A sample pretrained squeezenet: its classifier is a 1x1 Conv2d of
depth 512 → 1000. -/
def sampleSqueezenet : TVModel :=
  { features := sampleBackbone
    head := .conv
      { in_channels := 512, out_channels := 1000,
        kernel_size := (1, 1), stride := (1, 1),
        weight := { pname := "classifier.1.weight", requiresGrad := true },
        bias := { pname := "classifier.1.bias", requiresGrad := true } }
    auxHead := none
    num_classes_attr := some 1000 }

/-- A sample pretrained inception_v3: primary head 2048 → 1000 plus the
auxiliary head `AuxLogits.fc` 768 → 1000. -/
def sampleInception : TVModel :=
  { features := sampleBackbone
    head := .linear
      { in_features := 2048, out_features := 1000,
        weight := { pname := "fc.weight", requiresGrad := true },
        bias := { pname := "fc.bias", requiresGrad := true } }
    auxHead := some
      { in_features := 768, out_features := 1000,
        weight := { pname := "AuxLogits.fc.weight", requiresGrad := true },
        bias := { pname := "AuxLogits.fc.bias", requiresGrad := true } }
    num_classes_attr := none }

/-- A concrete model zoo with the documented torchvision layer widths. -/
def sampleZoo : TorchvisionModels :=
  { resnet18 := fun _ => sampleLinearModel 512
    alexnet := fun _ => sampleLinearModel 4096
    vgg11_bn := fun _ => sampleLinearModel 4096
    squeezenet1_0 := fun _ => sampleSqueezenet
    densenet121 := fun _ => sampleLinearModel 1024
    inception_v3 := fun _ => sampleInception }

/-! ## Training Loop Driver

`train_model(model, dataloaders, criterion, optimizer, num_epochs,
is_inception)`.  The model, the criterion, the optimizer and the
dataloaders are opaque collaborators, collected in `LoopEnv`:

* `fwd w phase b` is the composite of the forward pass and the criterion
  on batch `b` with current weights `w` in the mode set by the phase
  (`model.train()` / `model.eval()`): the primary loss
  `criterion(outputs, labels)`, the auxiliary loss
  `criterion(aux_outputs, labels)` (meaningful only where the code reads
  it), and `torch.sum(preds == labels)` with `preds` taken from the
  primary outputs (the code computes `preds` from `outputs` in every
  branch);
* `bsize b` is `inputs.size(0)`;
* `stepOpt w loss` is the weight update performed by `loss.backward()`
  plus `optimizer.step()` (the gradient depends only on the current
  batch's loss because `optimizer.zero_grad()` runs first each batch);
* `dls epoch phase` is the batch list `dataloaders[phase]` yields in the
  given epoch (shuffling makes it epoch-dependent; the underlying dataset
  is their disjoint union, so `len(dataloaders[phase].dataset)` is the
  sum of the batch sizes).

Python floats are modelled as exact rationals. -/

/-- The two phases of each epoch. -/
inductive Phase where
  | train
  | val
deriving DecidableEq, Repr

/-- What the opaque forward pass and criterion produce on one batch. -/
structure Outcome where
  primaryLoss : ℚ
  auxLoss : ℚ
  corrects : ℕ
deriving DecidableEq, Repr

/-- The opaque collaborators of `train_model`. -/
structure LoopEnv (W β : Type) where
  fwd : W → Phase → β → Outcome
  bsize : β → ℕ
  stepOpt : W → ℚ → W
  dls : ℕ → Phase → List β
  is_inception : Bool

/-- Observable actions of the loop body, recorded for the trace:
the start of a phase, the computation of the auxiliary loss term,
`loss.backward()`, and `optimizer.step()`. -/
inductive Ev where
  | phaseStart (epoch : ℕ) (phase : Phase)
  | computeAux (epoch : ℕ) (phase : Phase)
  | backward (epoch : ℕ) (phase : Phase)
  | optStep (epoch : ℕ) (phase : Phase)
deriving DecidableEq, Repr

/-- The running state of one phase: current weights, `running_loss`,
`running_corrects`, and the actions taken so far. -/
structure PhaseRes (W : Type) where
  w : W
  runningLoss : ℚ
  runningCorrects : ℕ
  events : List Ev
deriving Repr

/-- The body of `for inputs, labels in dataloaders[phase]`: zero the
gradients, run the forward pass (with gradient tracking iff training),
combine the losses — `loss1 + 0.4*loss2` for inception in train mode,
the single-output loss otherwise — and, in the train phase only, run the
backward pass and one optimizer step; accumulate the statistics. -/
def processBatch {W β : Type} (E : LoopEnv W β) (epoch : ℕ) (phase : Phase)
    (acc : PhaseRes W) (b : β) : PhaseRes W :=
  let o := E.fwd acc.w phase b
  let lossEvs :=
    if E.is_inception ∧ phase = Phase.train then
      (o.primaryLoss + (0.4 : ℚ) * o.auxLoss, [Ev.computeAux epoch phase])
    else
      (o.primaryLoss, ([] : List Ev))
  let stepped :=
    if phase = Phase.train then
      (E.stepOpt acc.w lossEvs.1,
        lossEvs.2 ++ [Ev.backward epoch phase, Ev.optStep epoch phase])
    else
      (acc.w, lossEvs.2)
  { w := stepped.1
    runningLoss := acc.runningLoss + lossEvs.1 * (E.bsize b : ℚ)
    runningCorrects := acc.runningCorrects + o.corrects
    events := acc.events ++ stepped.2 }

/-- One full pass over `dataloaders[phase]` starting from weights `w`. -/
def runPhase {W β : Type} (E : LoopEnv W β) (epoch : ℕ) (phase : Phase)
    (w : W) : PhaseRes W :=
  (E.dls epoch phase).foldl (processBatch E epoch phase)
    { w := w, runningLoss := 0, runningCorrects := 0, events := [] }

/-- `len(dataloaders[phase].dataset)`: the size of the partition the
loader covers, i.e. the sum of its batch sizes. -/
def datasetSize {W β : Type} (E : LoopEnv W β) (epoch : ℕ) (phase : Phase) : ℕ :=
  ((E.dls epoch phase).map E.bsize).sum

/-- The state `train_model` threads across epochs: the live model's
weights, `best_model_wts`, `best_acc`, `val_acc_history`, and the trace
of actions. -/
structure TrainState (W : Type) where
  modelW : W
  bestWts : W
  bestAcc : ℚ
  history : List ℚ
  trace : List Ev
deriving Repr

/-- The body of `for phase in ['train', 'val']`: run the phase, compute
`epoch_acc = running_corrects / len(dataloaders[phase].dataset)`; after a
val phase, replace the best snapshot and best accuracy on strict
improvement (`epoch_acc > best_acc`) and append `epoch_acc` to the
history. -/
def runEpochPhase {W β : Type} (E : LoopEnv W β) (epoch : ℕ) (phase : Phase)
    (s : TrainState W) : TrainState W :=
  let r := runPhase E epoch phase s.modelW
  let epoch_acc : ℚ := (r.runningCorrects : ℚ) / (datasetSize E epoch phase : ℚ)
  let s1 : TrainState W :=
    { s with modelW := r.w, trace := s.trace ++ Ev.phaseStart epoch phase :: r.events }
  let s2 : TrainState W :=
    if phase = Phase.val ∧ s1.bestAcc < epoch_acc then
      { s1 with bestAcc := epoch_acc, bestWts := s1.modelW }
    else
      s1
  if phase = Phase.val then
    { s2 with history := s2.history ++ [epoch_acc] }
  else
    s2

/-- One epoch: the two phases in the fixed order train, val. -/
def runEpoch {W β : Type} (E : LoopEnv W β) (epoch : ℕ) (s : TrainState W) :
    TrainState W :=
  [Phase.train, Phase.val].foldl (fun s p => runEpochPhase E epoch p s) s

/-- The state before the loop: `best_model_wts` a deep copy of the
pre-training weights, `best_acc = 0.0`, an empty history. -/
def initState {W : Type} (w0 : W) : TrainState W :=
  { modelW := w0, bestWts := w0, bestAcc := 0, history := [], trace := [] }

/-- The state after `for epoch in range(n)`. -/
def runEpochs {W β : Type} (E : LoopEnv W β) (w0 : W) : ℕ → TrainState W
  | 0 => initState w0
  | n + 1 => runEpoch E n (runEpochs E w0 n)

/-- `train_model`: run `num_epochs` epochs, then
`model.load_state_dict(best_model_wts)` and `return model,
val_acc_history` — the returned model carries the best snapshot's
weights. -/
def train_model {W β : Type} (E : LoopEnv W β) (w0 : W) (num_epochs : ℕ) :
    W × List ℚ :=
  let s := runEpochs E w0 num_epochs
  (s.bestWts, s.history)

/-- The validation accuracy an epoch records, as a function of the
weights at the start of the epoch: the val phase runs on the weights the
train phase left behind. -/
def epochValAcc {W β : Type} (E : LoopEnv W β) (epoch : ℕ) (w : W) : ℚ :=
  ((runPhase E epoch Phase.val (runPhase E epoch Phase.train w).w).runningCorrects : ℚ)
    / (datasetSize E epoch Phase.val : ℚ)

/-- The forward pass counts at most `inputs.size(0)` correct predictions
per batch (`preds == labels` is an elementwise comparison over the
batch). -/
def ValidFwd {W β : Type} (E : LoopEnv W β) : Prop :=
  ∀ (w : W) (p : Phase) (b : β), (E.fwd w p b).corrects ≤ E.bsize b

/-- Whether an event is the start of a phase. -/
def Ev.isStart : Ev → Bool
  | .phaseStart _ _ => true
  | _ => false

/-- The phase an event belongs to. -/
def Ev.phaseOf : Ev → Phase
  | .phaseStart _ p => p
  | .computeAux _ p => p
  | .backward _ p => p
  | .optStep _ p => p

/-- A tiny concrete environment exercising the loop: one batch of two
samples per phase, the weight counting the optimizer steps taken, and up
to two correct predictions once the weight has grown. -/
def witEnvA : LoopEnv ℕ Unit :=
  { fwd := fun w _ _ =>
      { primaryLoss := 1, auxLoss := 2, corrects := min w 2 }
    bsize := fun _ => 2
    stepOpt := fun w _ => w + 1
    dls := fun _ _ => [()]
    is_inception := true }

/-- A concrete environment whose model never predicts correctly: every
epoch records validation accuracy 0. -/
def witEnvB : LoopEnv ℕ Unit :=
  { fwd := fun _ _ _ =>
      { primaryLoss := 1, auxLoss := 0, corrects := 0 }
    bsize := fun _ => 2
    stepOpt := fun w _ => w + 1
    dls := fun _ _ => [()]
    is_inception := false }

/-! ### Facts and lemmas -/

theorem sampleZoo_facts : ZooFacts sampleZoo := by
  constructor <;> decide

/-! ### Helper lemmas for the adapter -/

theorem filter_grad_map_freeze (l : List Param) :
    (l.map Param.freeze).filter (fun q => q.requiresGrad) = [] := by
  induction l with
  | nil => rfl
  | cons p t ih => simp [Param.freeze, ih]

theorem filter_grad_of_all {l : List Param}
    (h : ∀ q ∈ l, q.requiresGrad = true) :
    l.filter (fun q => q.requiresGrad) = l := by
  induction l with
  | nil => rfl
  | cons p t ih =>
    have hp := h p (List.mem_cons_self p t)
    simp only [List.filter_cons, hp, if_pos]
    exact congrArg (p :: ·) (ih fun q hq => h q (List.mem_cons_of_mem p hq))

theorem sprg_head_inWidth (m : TVModel) (fe : Bool) :
    (set_parameter_requires_grad m fe).head.inWidth = m.head.inWidth := by
  cases fe
  · rfl
  · show m.head.freeze.inWidth = m.head.inWidth
    cases m.head <;> rfl

theorem sprg_aux_map_inF (m : TVModel) (fe : Bool) :
    (set_parameter_requires_grad m fe).auxHead.map Linear.in_features
      = m.auxHead.map Linear.in_features := by
  cases fe
  · rfl
  · show (m.auxHead.map Linear.freeze).map Linear.in_features = _
    cases m.auxHead <;> rfl

/-! ### Adapter claims -/

/-- C6: for every supported family identifier, the required input
resolution returned by `initialize_model` is 299 exactly for the
two-headed family (inception) and 224 for each of the other five. -/
theorem adapter_input_resolution (z : TorchvisionModels) (nc : Nat) (fe pre : Bool) :
    (∃ m, initialize_model z "resnet" nc fe pre = .ok (m, 224)) ∧
    (∃ m, initialize_model z "alexnet" nc fe pre = .ok (m, 224)) ∧
    (∃ m, initialize_model z "vgg" nc fe pre = .ok (m, 224)) ∧
    (∃ m, initialize_model z "squeezenet" nc fe pre = .ok (m, 224)) ∧
    (∃ m, initialize_model z "densenet" nc fe pre = .ok (m, 224)) ∧
    (∃ m, initialize_model z "inception" nc fe pre = .ok (m, 299)) :=
  ⟨⟨_, rfl⟩, ⟨_, rfl⟩, ⟨_, rfl⟩, ⟨_, rfl⟩, ⟨_, rfl⟩, ⟨_, rfl⟩⟩

/-- C4: an unrecognized family identifier makes `initialize_model` fail
with the invalid-name error, returning no model. -/
theorem adapter_invalid_family (z : TorchvisionModels) (nc : Nat) (fe pre : Bool)
    (name : String)
    (hname : name ∉ (["resnet", "alexnet", "vgg", "squeezenet",
      "densenet", "inception"] : List String)) :
    initialize_model z name nc fe pre = .error "Invalid model name, exiting..." := by
  simp only [List.mem_cons, List.not_mem_nil, or_false, not_or] at hname
  obtain ⟨h1, h2, h3, h4, h5, h6⟩ := hname
  simp [initialize_model, h1, h2, h3, h4, h5, h6]

theorem adapter_invalid_family_app :
    initialize_model sampleZoo "resnext" 2 true true
      = .error "Invalid model name, exiting..." :=
  adapter_invalid_family sampleZoo 2 true true "resnext" (by decide)

/-- C5: for each of the six supported families `initialize_model` returns
a model whose final classification layer is a freshly constructed layer
with output width `num_classes` and the family's documented input width;
for inception BOTH the auxiliary and the primary head are replaced. -/
theorem adapter_head_replacement (z : TorchvisionModels) (hwf : ZooFacts z)
    (nc : Nat) (fe pre : Bool) :
    (∃ m, initialize_model z "resnet" nc fe pre = .ok (m, 224) ∧
      m.head = .linear (nnLinear 512 nc)) ∧
    (∃ m, initialize_model z "alexnet" nc fe pre = .ok (m, 224) ∧
      m.head = .linear (nnLinear 4096 nc)) ∧
    (∃ m, initialize_model z "vgg" nc fe pre = .ok (m, 224) ∧
      m.head = .linear (nnLinear 4096 nc)) ∧
    (∃ m, initialize_model z "squeezenet" nc fe pre = .ok (m, 224) ∧
      m.head = .conv (nnConv2d 512 nc (1, 1) (1, 1))) ∧
    (∃ m, initialize_model z "densenet" nc fe pre = .ok (m, 224) ∧
      m.head = .linear (nnLinear 1024 nc)) ∧
    (∃ m, initialize_model z "inception" nc fe pre = .ok (m, 299) ∧
      m.head = .linear (nnLinear 2048 nc) ∧
      m.auxHead = some (nnLinear 768 nc)) := by
  refine ⟨⟨_, rfl, ?_⟩, ⟨_, rfl, ?_⟩, ⟨_, rfl, ?_⟩, ⟨_, rfl, rfl⟩,
    ⟨_, rfl, ?_⟩, ⟨_, rfl, ?_, ?_⟩⟩
  · show HeadLayer.linear
        (nnLinear ((set_parameter_requires_grad (z.resnet18 pre) fe).head.inWidth) nc) = _
    rw [sprg_head_inWidth, hwf.resnet_width]
  · show HeadLayer.linear
        (nnLinear ((set_parameter_requires_grad (z.alexnet pre) fe).head.inWidth) nc) = _
    rw [sprg_head_inWidth, hwf.alexnet_width]
  · show HeadLayer.linear
        (nnLinear ((set_parameter_requires_grad (z.vgg11_bn pre) fe).head.inWidth) nc) = _
    rw [sprg_head_inWidth, hwf.vgg_width]
  · show HeadLayer.linear
        (nnLinear ((set_parameter_requires_grad (z.densenet121 pre) fe).head.inWidth) nc) = _
    rw [sprg_head_inWidth, hwf.densenet_width]
  · show HeadLayer.linear
        (nnLinear ((set_parameter_requires_grad (z.inception_v3 pre) fe).head.inWidth) nc) = _
    rw [sprg_head_inWidth, hwf.inception_width]
  · have h : (set_parameter_requires_grad (z.inception_v3 pre) fe).auxHead.map
        Linear.in_features = some 768 := by
      rw [sprg_aux_map_inF]
      exact hwf.inception_aux pre
    show some (nnLinear
      (match (set_parameter_requires_grad (z.inception_v3 pre) fe).auxHead with
       | some l => l.in_features
       | none => 0) nc) = some (nnLinear 768 nc)
    rcases ho : (set_parameter_requires_grad (z.inception_v3 pre) fe).auxHead with _ | l
    · rw [ho, Option.map_none'] at h
      exact Option.noConfusion h
    · rw [ho, Option.map_some'] at h
      simp only [Option.some.injEq] at h
      simp only [ho, h]

theorem adapter_head_replacement_app :
    ∃ m, initialize_model sampleZoo "inception" 3 true true = .ok (m, 299) ∧
      m.head = .linear (nnLinear 2048 3) ∧
      m.auxHead = some (nnLinear 768 3) :=
  (adapter_head_replacement sampleZoo sampleZoo_facts 3 true true).2.2.2.2.2

/-- C3: for every accepted family, with `feature_extract = true` the
trainable parameters of the adapted model are exactly the parameters of
the newly substituted final layer(s) (no pre-existing parameter stays
trainable); with `feature_extract = false` every parameter, backbone
included, is trainable. -/
theorem adapter_trainable_set (z : TorchvisionModels) (hwf : ZooFacts z)
    (nc : Nat) (pre : Bool) (name : String)
    (hname : name ∈ (["resnet", "alexnet", "vgg", "squeezenet",
      "densenet", "inception"] : List String)) :
    (∀ m sz, initialize_model z name nc true pre = .ok (m, sz) →
      trainableParams m = headParamsOf m) ∧
    (∀ m sz, initialize_model z name nc false pre = .ok (m, sz) →
      trainableParams m = m.parameters) := by
  simp only [List.mem_cons, List.not_mem_nil, or_false] at hname
  have step : ∀ (m0 : TVModel), m0.auxHead = none →
      ∀ (nh : HeadLayer) (nca : Option Nat),
      nh.params.filter (fun q => q.requiresGrad) = nh.params →
      trainableParams
        (TVModel.mk ((set_parameter_requires_grad m0 true).features) nh
          ((set_parameter_requires_grad m0 true).auxHead) nca)
        = headParamsOf
        (TVModel.mk ((set_parameter_requires_grad m0 true).features) nh
          ((set_parameter_requires_grad m0 true).auxHead) nca) := by
    intro m0 ha nh nca hnh
    simp [trainableParams, headParamsOf, TVModel.parameters,
      set_parameter_requires_grad, ha, List.filter_append,
      filter_grad_map_freeze, hnh]
  have stepF : ∀ (m0 : TVModel), m0.auxHead = none →
      (∀ q ∈ m0.parameters, q.requiresGrad = true) →
      ∀ (nh : HeadLayer) (nca : Option Nat),
      (∀ q ∈ nh.params, q.requiresGrad = true) →
      trainableParams (TVModel.mk m0.features nh m0.auxHead nca)
        = (TVModel.mk m0.features nh m0.auxHead nca).parameters := by
    intro m0 ha hall nh nca hnh
    refine filter_grad_of_all ?_
    intro q hq
    simp only [TVModel.parameters, ha, List.append_nil, List.mem_append] at hq
    rcases hq with hq | hq
    · refine hall q ?_
      simp only [TVModel.parameters, List.mem_append]
      exact Or.inl (Or.inl hq)
    · exact hnh q hq
  rcases hname with rfl | rfl | rfl | rfl | rfl | rfl
  -- resnet
  · refine ⟨fun m sz h => ?_, fun m sz h => ?_⟩
    · injection h with h2
      injection h2 with hm hsz
      subst hm
      exact step _ (hwf.resnet_aux pre) _ _ rfl
    · injection h with h2
      injection h2 with hm hsz
      subst hm
      exact stepF _ (hwf.resnet_aux pre) (hwf.resnet_grad pre) _ _ (by
        simp [HeadLayer.params, nnLinear])
  -- alexnet
  · refine ⟨fun m sz h => ?_, fun m sz h => ?_⟩
    · injection h with h2
      injection h2 with hm hsz
      subst hm
      exact step _ (hwf.alexnet_aux pre) _ _ rfl
    · injection h with h2
      injection h2 with hm hsz
      subst hm
      exact stepF _ (hwf.alexnet_aux pre) (hwf.alexnet_grad pre) _ _ (by
        simp [HeadLayer.params, nnLinear])
  -- vgg
  · refine ⟨fun m sz h => ?_, fun m sz h => ?_⟩
    · injection h with h2
      injection h2 with hm hsz
      subst hm
      exact step _ (hwf.vgg_aux pre) _ _ rfl
    · injection h with h2
      injection h2 with hm hsz
      subst hm
      exact stepF _ (hwf.vgg_aux pre) (hwf.vgg_grad pre) _ _ (by
        simp [HeadLayer.params, nnLinear])
  -- squeezenet
  · refine ⟨fun m sz h => ?_, fun m sz h => ?_⟩
    · injection h with h2
      injection h2 with hm hsz
      subst hm
      exact step _ (hwf.squeezenet_aux pre) _ _ rfl
    · injection h with h2
      injection h2 with hm hsz
      subst hm
      exact stepF _ (hwf.squeezenet_aux pre) (hwf.squeezenet_grad pre) _ _ (by
        simp [HeadLayer.params, nnConv2d])
  -- densenet
  · refine ⟨fun m sz h => ?_, fun m sz h => ?_⟩
    · injection h with h2
      injection h2 with hm hsz
      subst hm
      exact step _ (hwf.densenet_aux pre) _ _ rfl
    · injection h with h2
      injection h2 with hm hsz
      subst hm
      exact stepF _ (hwf.densenet_aux pre) (hwf.densenet_grad pre) _ _ (by
        simp [HeadLayer.params, nnLinear])
  -- inception: both heads are freshly substituted
  · refine ⟨fun m sz h => ?_, fun m sz h => ?_⟩
    · injection h with h2
      injection h2 with hm hsz
      subst hm
      simp [trainableParams, headParamsOf, TVModel.parameters,
        set_parameter_requires_grad, List.filter_append,
        filter_grad_map_freeze, HeadLayer.params, nnLinear]
    · injection h with h2
      injection h2 with hm hsz
      subst hm
      refine filter_grad_of_all ?_
      intro q hq
      simp only [TVModel.parameters, set_parameter_requires_grad,
        Bool.false_eq_true, if_false, HeadLayer.params, nnLinear,
        List.mem_append, List.mem_cons, List.not_mem_nil, or_false] at hq
      rcases hq with hq | hq
      rcases hq with hq | hq
      · refine hwf.inception_grad pre q ?_
        simp only [TVModel.parameters, List.mem_append]
        exact Or.inl (Or.inl hq)
      · rcases hq with rfl | rfl <;> rfl
      · rcases hq with rfl | rfl <;> rfl

theorem adapter_trainable_set_app :
    (∀ m sz, initialize_model sampleZoo "inception" 3 true true = .ok (m, sz) →
      trainableParams m = headParamsOf m) ∧
    (∀ m sz, initialize_model sampleZoo "inception" 3 false true = .ok (m, sz) →
      trainableParams m = m.parameters) :=
  adapter_trainable_set sampleZoo sampleZoo_facts 3 true "inception" (by decide)

/-! ### Batch-level lemmas -/

theorem processBatch_val {W β : Type} (E : LoopEnv W β) (e : ℕ)
    (acc : PhaseRes W) (b : β) :
    processBatch E e Phase.val acc b =
      { w := acc.w
        runningLoss := acc.runningLoss
          + (E.fwd acc.w Phase.val b).primaryLoss * (E.bsize b : ℚ)
        runningCorrects := acc.runningCorrects + (E.fwd acc.w Phase.val b).corrects
        events := acc.events } := by
  simp [processBatch]

theorem processBatch_train {W β : Type} (E : LoopEnv W β) (e : ℕ)
    (acc : PhaseRes W) (b : β) :
    processBatch E e Phase.train acc b =
      let o := E.fwd acc.w Phase.train b
      let loss := if E.is_inception then o.primaryLoss + (0.4 : ℚ) * o.auxLoss
        else o.primaryLoss
      { w := E.stepOpt acc.w loss
        runningLoss := acc.runningLoss + loss * (E.bsize b : ℚ)
        runningCorrects := acc.runningCorrects + o.corrects
        events := acc.events
          ++ ((if E.is_inception then [Ev.computeAux e Phase.train] else [])
            ++ [Ev.backward e Phase.train, Ev.optStep e Phase.train]) } := by
  cases hI : E.is_inception <;> simp [processBatch, hI]

theorem processBatch_corrects {W β : Type} (E : LoopEnv W β) (e : ℕ) (p : Phase)
    (acc : PhaseRes W) (b : β) :
    (processBatch E e p acc b).runningCorrects
      = acc.runningCorrects + (E.fwd acc.w p b).corrects := rfl

theorem foldl_val_w {W β : Type} (E : LoopEnv W β) (e : ℕ) (bs : List β) :
    ∀ acc : PhaseRes W,
      (bs.foldl (processBatch E e Phase.val) acc).w = acc.w := by
  induction bs with
  | nil => intro acc; rfl
  | cons b t ih =>
    intro acc
    rw [List.foldl_cons, ih, processBatch_val]

theorem foldl_val_events {W β : Type} (E : LoopEnv W β) (e : ℕ) (bs : List β) :
    ∀ acc : PhaseRes W,
      (bs.foldl (processBatch E e Phase.val) acc).events = acc.events := by
  induction bs with
  | nil => intro acc; rfl
  | cons b t ih =>
    intro acc
    rw [List.foldl_cons, ih, processBatch_val]

theorem foldl_val_loss {W β : Type} (E : LoopEnv W β) (e : ℕ) (bs : List β) :
    ∀ acc : PhaseRes W,
      (bs.foldl (processBatch E e Phase.val) acc).runningLoss
        = acc.runningLoss
          + (bs.map (fun b => (E.fwd acc.w Phase.val b).primaryLoss
              * (E.bsize b : ℚ))).sum := by
  induction bs with
  | nil => intro acc; simp
  | cons b t ih =>
    intro acc
    rw [List.foldl_cons, ih, processBatch_val]
    simp [add_assoc]

theorem runPhase_val_w {W β : Type} (E : LoopEnv W β) (e : ℕ) (w : W) :
    (runPhase E e Phase.val w).w = w :=
  foldl_val_w E e _ _

theorem runPhase_val_events {W β : Type} (E : LoopEnv W β) (e : ℕ) (w : W) :
    (runPhase E e Phase.val w).events = [] :=
  foldl_val_events E e _ _

theorem runPhase_val_loss {W β : Type} (E : LoopEnv W β) (e : ℕ) (w : W) :
    (runPhase E e Phase.val w).runningLoss
      = ((E.dls e Phase.val).map (fun b => (E.fwd w Phase.val b).primaryLoss
          * (E.bsize b : ℚ))).sum := by
  rw [runPhase, foldl_val_loss]
  simp

theorem foldl_corrects_le {W β : Type} (E : LoopEnv W β) (hv : ValidFwd E)
    (e : ℕ) (p : Phase) (bs : List β) :
    ∀ acc : PhaseRes W,
      (bs.foldl (processBatch E e p) acc).runningCorrects
        ≤ acc.runningCorrects + (bs.map E.bsize).sum := by
  induction bs with
  | nil => intro acc; simp
  | cons b t ih =>
    intro acc
    rw [List.foldl_cons]
    refine le_trans (ih _) ?_
    rw [processBatch_corrects]
    simp only [List.map_cons, List.sum_cons, ← add_assoc]
    exact Nat.add_le_add_right (Nat.add_le_add_left (hv acc.w p b) _) _

theorem runPhase_corrects_le {W β : Type} (E : LoopEnv W β) (hv : ValidFwd E)
    (e : ℕ) (p : Phase) (w : W) :
    (runPhase E e p w).runningCorrects ≤ datasetSize E e p := by
  have := foldl_corrects_le E hv e p (E.dls e p)
    { w := w, runningLoss := 0, runningCorrects := 0, events := [] }
  simpa [runPhase, datasetSize] using this

theorem runPhase_events_mem {W β : Type} (E : LoopEnv W β) (e : ℕ) (p : Phase)
    (bs : List β) :
    ∀ (acc : PhaseRes W) (ev : Ev),
      ev ∈ (bs.foldl (processBatch E e p) acc).events →
      ev ∈ acc.events ∨ ev = Ev.computeAux e p ∨ ev = Ev.backward e p
        ∨ ev = Ev.optStep e p := by
  induction bs with
  | nil => intro acc ev h; exact Or.inl h
  | cons b t ih =>
    intro acc ev h
    rw [List.foldl_cons] at h
    rcases ih _ ev h with h' | h' | h' | h'
    · cases p with
      | val =>
        rw [processBatch_val] at h'
        exact Or.inl h'
      | train =>
        rw [processBatch_train] at h'
        simp only [List.mem_append, List.mem_cons, List.not_mem_nil,
          or_false] at h'
        rcases h' with h' | h' | h' | h'
        · exact Or.inl h'
        · cases hI : E.is_inception <;> simp [hI] at h'
          exact Or.inr (Or.inl h')
        · exact Or.inr (Or.inr (Or.inl h'))
        · exact Or.inr (Or.inr (Or.inr h'))
    · exact Or.inr (Or.inl h')
    · exact Or.inr (Or.inr (Or.inl h'))
    · exact Or.inr (Or.inr (Or.inr h'))

/-! ### Epoch-level characterizations -/

theorem runEpochPhase_train {W β : Type} (E : LoopEnv W β) (e : ℕ)
    (s : TrainState W) :
    runEpochPhase E e Phase.train s =
      { s with
        modelW := (runPhase E e Phase.train s.modelW).w
        trace := s.trace ++ Ev.phaseStart e Phase.train
          :: (runPhase E e Phase.train s.modelW).events } := by
  simp [runEpochPhase]

theorem runEpochPhase_val {W β : Type} (E : LoopEnv W β) (e : ℕ)
    (s : TrainState W) :
    runEpochPhase E e Phase.val s =
      { modelW := s.modelW
        bestWts := if s.bestAcc < ((runPhase E e Phase.val s.modelW).runningCorrects : ℚ)
            / (datasetSize E e Phase.val : ℚ) then s.modelW else s.bestWts
        bestAcc := if s.bestAcc < ((runPhase E e Phase.val s.modelW).runningCorrects : ℚ)
            / (datasetSize E e Phase.val : ℚ)
          then ((runPhase E e Phase.val s.modelW).runningCorrects : ℚ)
            / (datasetSize E e Phase.val : ℚ) else s.bestAcc
        history := s.history ++ [((runPhase E e Phase.val s.modelW).runningCorrects : ℚ)
            / (datasetSize E e Phase.val : ℚ)]
        trace := s.trace ++ [Ev.phaseStart e Phase.val] } := by
  by_cases hc : s.bestAcc < ((runPhase E e Phase.val s.modelW).runningCorrects : ℚ)
      / (datasetSize E e Phase.val : ℚ) <;>
    simp [runEpochPhase, runPhase_val_w, runPhase_val_events, hc]

theorem runEpoch_eq {W β : Type} (E : LoopEnv W β) (e : ℕ) (s : TrainState W) :
    runEpoch E e s =
      { modelW := (runPhase E e Phase.train s.modelW).w
        bestWts := if s.bestAcc < epochValAcc E e s.modelW
          then (runPhase E e Phase.train s.modelW).w else s.bestWts
        bestAcc := if s.bestAcc < epochValAcc E e s.modelW
          then epochValAcc E e s.modelW else s.bestAcc
        history := s.history ++ [epochValAcc E e s.modelW]
        trace := s.trace ++ Ev.phaseStart e Phase.train
          :: ((runPhase E e Phase.train s.modelW).events
            ++ [Ev.phaseStart e Phase.val]) } := by
  show runEpochPhase E e Phase.val (runEpochPhase E e Phase.train s) = _
  rw [runEpochPhase_train, runEpochPhase_val]
  simp [epochValAcc, List.append_assoc]

theorem runEpochs_succ {W β : Type} (E : LoopEnv W β) (w0 : W) (n : ℕ) :
    runEpochs E w0 (n + 1) = runEpoch E n (runEpochs E w0 n) := rfl

theorem runEpochs_succ_modelW {W β : Type} (E : LoopEnv W β) (w0 : W) (n : ℕ) :
    (runEpochs E w0 (n + 1)).modelW
      = (runPhase E n Phase.train (runEpochs E w0 n).modelW).w := by
  rw [runEpochs_succ, runEpoch_eq]

theorem runEpochs_history_length {W β : Type} (E : LoopEnv W β) (w0 : W) :
    ∀ n, (runEpochs E w0 n).history.length = n := by
  intro n
  induction n with
  | zero => rfl
  | succ n ih =>
    rw [runEpochs_succ, runEpoch_eq]
    simp [ih]

theorem runEpochs_bestAcc_max {W β : Type} (E : LoopEnv W β) (w0 : W) :
    ∀ n, (runEpochs E w0 n).bestAcc = (runEpochs E w0 n).history.foldl max 0 := by
  intro n
  induction n with
  | zero => rfl
  | succ n ih =>
    rw [runEpochs_succ, runEpoch_eq]
    by_cases hc : (runEpochs E w0 n).bestAcc < epochValAcc E n (runEpochs E w0 n).modelW <;>
      simp only [hc, if_pos, if_neg, ite_true, ite_false, List.foldl_append,
        List.foldl_cons, List.foldl_nil, ← ih]
    · rw [max_eq_right hc.le]
    · rw [max_eq_left (not_lt.mp hc)]

theorem le_foldl_max (l : List ℚ) :
    ∀ i : ℚ, i ≤ l.foldl max i ∧ ∀ x ∈ l, x ≤ l.foldl max i := by
  induction l with
  | nil => intro i; simp
  | cons a t ih =>
    intro i
    refine ⟨le_trans (le_max_left i a) (ih (max i a)).1, ?_⟩
    intro x hx
    rcases List.mem_cons.mp hx with rfl | hx
    · exact le_trans (le_max_right i x) (ih (max i x)).1
    · exact (ih (max i a)).2 x hx

theorem foldl_max_mem (l : List ℚ) :
    ∀ i : ℚ, l.foldl max i = i ∨ l.foldl max i ∈ l := by
  induction l with
  | nil => intro i; exact Or.inl rfl
  | cons a t ih =>
    intro i
    rcases ih (max i a) with h | h
    · rcases max_choice i a with hm | hm
      · exact Or.inl (by rw [List.foldl_cons, h, hm])
      · exact Or.inr (by rw [List.foldl_cons, h, hm]; exact List.mem_cons_self a t)
    · exact Or.inr (List.mem_cons_of_mem a h)

theorem runEpochs_best_spec {W β : Type} (E : LoopEnv W β) (w0 : W) :
    ∀ n, 0 < (runEpochs E w0 n).bestAcc →
      (runEpochs E w0 n).bestAcc ∈ (runEpochs E w0 n).history ∧
      (runEpochs E w0 n).history.indexOf (runEpochs E w0 n).bestAcc < n ∧
      (runEpochs E w0 n).bestWts
        = (runEpochs E w0
            ((runEpochs E w0 n).history.indexOf (runEpochs E w0 n).bestAcc + 1)).modelW := by
  intro n
  induction n with
  | zero => intro h; exact absurd h (lt_irrefl 0)
  | succ n ih =>
    by_cases hc : (runEpochs E w0 n).bestAcc < epochValAcc E n (runEpochs E w0 n).modelW
    · intro _
      have hmax := runEpochs_bestAcc_max E w0 n
      have hnotmem : epochValAcc E n (runEpochs E w0 n).modelW ∉ (runEpochs E w0 n).history := by
        intro hmem
        have hle := (le_foldl_max (runEpochs E w0 n).history 0).2 _ hmem
        rw [← hmax] at hle
        exact absurd hc (not_lt.mpr hle)
      have hbA : (runEpochs E w0 (n + 1)).bestAcc
          = epochValAcc E n (runEpochs E w0 n).modelW := by
        rw [runEpochs_succ, runEpoch_eq]
        simp [hc]
      have hbW : (runEpochs E w0 (n + 1)).bestWts
          = (runPhase E n Phase.train (runEpochs E w0 n).modelW).w := by
        rw [runEpochs_succ, runEpoch_eq]
        simp [hc]
      have hh : (runEpochs E w0 (n + 1)).history
          = (runEpochs E w0 n).history ++ [epochValAcc E n (runEpochs E w0 n).modelW] := by
        rw [runEpochs_succ, runEpoch_eq]
      have hidx : (runEpochs E w0 (n + 1)).history.indexOf
          ((runEpochs E w0 (n + 1)).bestAcc) = n := by
        rw [hh, hbA, List.indexOf_append_of_not_mem hnotmem, List.indexOf_cons_self,
          Nat.add_zero, runEpochs_history_length]
      refine ⟨?_, ?_, ?_⟩
      · rw [hh, hbA]
        exact List.mem_append_right _ (List.mem_singleton.mpr rfl)
      · rw [hidx]; omega
      · rw [hbW, hidx, runEpochs_succ_modelW]
    · intro hpos
      have hbA : (runEpochs E w0 (n + 1)).bestAcc = (runEpochs E w0 n).bestAcc := by
        rw [runEpochs_succ, runEpoch_eq]
        simp [hc]
      have hbW : (runEpochs E w0 (n + 1)).bestWts = (runEpochs E w0 n).bestWts := by
        rw [runEpochs_succ, runEpoch_eq]
        simp [hc]
      have hh : (runEpochs E w0 (n + 1)).history
          = (runEpochs E w0 n).history ++ [epochValAcc E n (runEpochs E w0 n).modelW] := by
        rw [runEpochs_succ, runEpoch_eq]
      rw [hbA] at hpos
      obtain ⟨hmem, hidxlt, hwts⟩ := ih hpos
      have hidx : (runEpochs E w0 (n + 1)).history.indexOf
          ((runEpochs E w0 (n + 1)).bestAcc)
          = (runEpochs E w0 n).history.indexOf (runEpochs E w0 n).bestAcc := by
        rw [hh, hbA, List.indexOf_append_of_mem hmem]
      refine ⟨?_, ?_, ?_⟩
      · rw [hh, hbA]
        exact List.mem_append_left _ hmem
      · rw [hidx]; omega
      · rw [hbW, hidx]
        exact hwts

/-! ### Accuracy bounds -/

theorem natDiv01 (c d : ℕ) (h : c ≤ d) :
    0 ≤ (c : ℚ) / (d : ℚ) ∧ (c : ℚ) / (d : ℚ) ≤ 1 := by
  rcases Nat.eq_zero_or_pos d with rfl | hd
  · have hc : c = 0 := Nat.le_zero.mp h
    subst hc
    norm_num
  · have hd' : (0 : ℚ) < (d : ℚ) := by exact_mod_cast hd
    refine ⟨div_nonneg (by positivity) hd'.le, ?_⟩
    rw [div_le_one hd']
    exact_mod_cast h

theorem runEpochs_history_bounds {W β : Type} (E : LoopEnv W β) (w0 : W)
    (hv : ValidFwd E) :
    ∀ n, ∀ a ∈ (runEpochs E w0 n).history, 0 ≤ a ∧ a ≤ 1 := by
  intro n
  induction n with
  | zero => intro a h; exact absurd h (List.not_mem_nil a)
  | succ n ih =>
    intro a h
    have hh : (runEpochs E w0 (n + 1)).history
        = (runEpochs E w0 n).history
          ++ [epochValAcc E n (runEpochs E w0 n).modelW] := by
      rw [runEpochs_succ, runEpoch_eq]
    rw [hh] at h
    rcases List.mem_append.mp h with h | h
    · exact ih a h
    · rw [List.mem_singleton] at h
      subst h
      exact natDiv01 _ _ (runPhase_corrects_le E hv n Phase.val _)

/-! ### Trace shape -/

theorem runEpochs_trace_val_start {W β : Type} (E : LoopEnv W β) (w0 : W) :
    ∀ n, ∀ ev ∈ (runEpochs E w0 n).trace,
      ev.phaseOf = Phase.val → ev.isStart = true := by
  intro n
  induction n with
  | zero => intro ev h; exact absurd h (List.not_mem_nil ev)
  | succ n ih =>
    have ht : (runEpochs E w0 (n + 1)).trace
        = (runEpochs E w0 n).trace ++ Ev.phaseStart n Phase.train
          :: ((runPhase E n Phase.train (runEpochs E w0 n).modelW).events
            ++ [Ev.phaseStart n Phase.val]) := by
      rw [runEpochs_succ, runEpoch_eq]
    intro ev hmem hval
    rw [ht] at hmem
    rcases List.mem_append.mp hmem with h | h
    · exact ih ev h hval
    · rcases List.mem_cons.mp h with rfl | h
      · rfl
      · rcases List.mem_append.mp h with h | h
        · rcases runPhase_events_mem E n Phase.train _ _ ev h with h' | h' | h' | h'
          · exact absurd h' (List.not_mem_nil ev)
          · subst h'; exact absurd hval (by simp [Ev.phaseOf])
          · subst h'; exact absurd hval (by simp [Ev.phaseOf])
          · subst h'; exact absurd hval (by simp [Ev.phaseOf])
        · rw [List.mem_singleton] at h
          subst h
          rfl

theorem foldl_events_filter_start {W β : Type} (E : LoopEnv W β) (e : ℕ)
    (p : Phase) (bs : List β) :
    ∀ acc : PhaseRes W,
      ((bs.foldl (processBatch E e p) acc).events).filter Ev.isStart
        = acc.events.filter Ev.isStart := by
  induction bs with
  | nil => intro acc; rfl
  | cons b t ih =>
    intro acc
    rw [List.foldl_cons, ih]
    cases p with
    | val => rw [processBatch_val]
    | train =>
      rw [processBatch_train]
      simp only [List.filter_append]
      cases hI : E.is_inception <;> simp [hI, Ev.isStart]

theorem runPhase_events_filter_start {W β : Type} (E : LoopEnv W β) (e : ℕ)
    (p : Phase) (w : W) :
    ((runPhase E e p w).events).filter Ev.isStart = [] := by
  rw [runPhase, foldl_events_filter_start]
  rfl

/-! ### Training-loop claims -/

/-- C1: the history has one entry per epoch, each in [0,1]; the best
accuracy is the maximum of the recorded accuracies (and 0 initially); on
a strictly positive best accuracy the returned weights are the snapshot
taken after the train phase of the earliest epoch attaining it; the best
snapshot and accuracy are untouched by an epoch that does not strictly
improve. -/
theorem train_model_history_spec {W β : Type} (E : LoopEnv W β) (w0 : W)
    (N : ℕ) (hv : ValidFwd E) :
    (train_model E w0 N).2.length = N ∧
    (∀ a ∈ (train_model E w0 N).2, 0 ≤ a ∧ a ≤ 1) ∧
    (runEpochs E w0 N).bestAcc = (train_model E w0 N).2.foldl max 0 ∧
    (0 < (runEpochs E w0 N).bestAcc →
      (train_model E w0 N).1
        = (runEpochs E w0
            ((train_model E w0 N).2.indexOf (runEpochs E w0 N).bestAcc + 1)).modelW) ∧
    (∀ (e : ℕ) (s : TrainState W), epochValAcc E e s.modelW ≤ s.bestAcc →
      (runEpoch E e s).bestAcc = s.bestAcc ∧ (runEpoch E e s).bestWts = s.bestWts) := by
  refine ⟨runEpochs_history_length E w0 N,
    fun a h => runEpochs_history_bounds E w0 hv N a h,
    runEpochs_bestAcc_max E w0 N,
    fun h => (runEpochs_best_spec E w0 N h).2.2, ?_⟩
  intro e s hle
  rw [runEpoch_eq]
  constructor <;> simp [not_lt.mpr hle]

theorem train_model_history_spec_app :
    (train_model witEnvA 0 2).2.length = 2 :=
  (train_model_history_spec witEnvA 0 2 (fun w _ _ => min_le_right w 2)).1

/-- C2: per training batch, with the inception flag the loss fed to the
statistics and the optimizer step is `loss1 + 0.4 * loss2`; without it,
and in every validation batch, it is the single-output loss. -/
theorem processBatch_loss_spec {W β : Type} (E : LoopEnv W β) (e : ℕ)
    (acc : PhaseRes W) (b : β) :
    ((processBatch { E with is_inception := true } e Phase.train acc b).runningLoss
        = acc.runningLoss + ((E.fwd acc.w Phase.train b).primaryLoss
            + (0.4 : ℚ) * (E.fwd acc.w Phase.train b).auxLoss) * (E.bsize b : ℚ)) ∧
    ((processBatch { E with is_inception := true } e Phase.train acc b).w
        = E.stepOpt acc.w ((E.fwd acc.w Phase.train b).primaryLoss
            + (0.4 : ℚ) * (E.fwd acc.w Phase.train b).auxLoss)) ∧
    ((processBatch { E with is_inception := false } e Phase.train acc b).runningLoss
        = acc.runningLoss
          + (E.fwd acc.w Phase.train b).primaryLoss * (E.bsize b : ℚ)) ∧
    ((processBatch { E with is_inception := false } e Phase.train acc b).w
        = E.stepOpt acc.w (E.fwd acc.w Phase.train b).primaryLoss) ∧
    ((processBatch E e Phase.val acc b).runningLoss
        = acc.runningLoss
          + (E.fwd acc.w Phase.val b).primaryLoss * (E.bsize b : ℚ)) := by
  refine ⟨?_, ?_, ?_, ?_, ?_⟩ <;>
    simp [processBatch, processBatch_val]

/-- C7: no validation phase ever runs the optimizer step, the backward
pass or the auxiliary loss term, whatever the inception flag; its loss
comes from the primary output alone and it leaves the weights unchanged. -/
theorem train_model_val_phase_spec {W β : Type} (E : LoopEnv W β) (w0 : W)
    (N : ℕ) :
    (∀ e, Ev.optStep e Phase.val ∉ (runEpochs E w0 N).trace) ∧
    (∀ e, Ev.backward e Phase.val ∉ (runEpochs E w0 N).trace) ∧
    (∀ e, Ev.computeAux e Phase.val ∉ (runEpochs E w0 N).trace) ∧
    (∀ (e : ℕ) (w : W), (runPhase E e Phase.val w).w = w) ∧
    (∀ (e : ℕ) (w : W), (runPhase E e Phase.val w).runningLoss
      = ((E.dls e Phase.val).map (fun b =>
          (E.fwd w Phase.val b).primaryLoss * (E.bsize b : ℚ))).sum) := by
  refine ⟨fun e h => ?_, fun e h => ?_, fun e h => ?_,
    runPhase_val_w E, runPhase_val_loss E⟩ <;>
  · have := runEpochs_trace_val_start E w0 N _ h rfl
    simp [Ev.isStart] at this

/-- C8: the loop runs exactly `num_epochs` epochs, each a train phase then
a val phase in that order — the phase-start trace is the full alternating
sequence, independent of the data or accuracies (no early stopping) —
and then returns the best snapshot and the full accuracy history. -/
theorem train_model_epoch_structure {W β : Type} (E : LoopEnv W β) (w0 : W)
    (N : ℕ) :
    ((runEpochs E w0 N).trace.filter Ev.isStart)
      = (List.range N).flatMap
          (fun e => [Ev.phaseStart e Phase.train, Ev.phaseStart e Phase.val]) ∧
    train_model E w0 N = ((runEpochs E w0 N).bestWts, (runEpochs E w0 N).history) := by
  refine ⟨?_, rfl⟩
  induction N with
  | zero => rfl
  | succ n ih =>
    have ht : (runEpochs E w0 (n + 1)).trace
        = (runEpochs E w0 n).trace ++ Ev.phaseStart n Phase.train
          :: ((runPhase E n Phase.train (runEpochs E w0 n).modelW).events
            ++ [Ev.phaseStart n Phase.val]) := by
      rw [runEpochs_succ, runEpoch_eq]
    rw [ht, List.filter_append, ih, List.range_succ]
    simp [runPhase_events_filter_start, Ev.isStart]

/-- C9: the best tracker starts at accuracy 0.0 with a copy of the
pre-training weights, a run of zero epochs returns them with an empty
history, and a run in which no epoch attains a validation accuracy
strictly above 0 returns the pre-training weights. -/
theorem train_model_no_improvement {W β : Type} (E : LoopEnv W β) (w0 : W)
    (N : ℕ) (h : ∀ a ∈ (runEpochs E w0 N).history, ¬ 0 < a) :
    (runEpochs E w0 0).bestAcc = 0 ∧ (runEpochs E w0 0).bestWts = w0 ∧
    (train_model E w0 0).2 = [] ∧ (train_model E w0 0).1 = w0 ∧
    (train_model E w0 N).1 = w0 := by
  have key : ∀ n, (∀ a ∈ (runEpochs E w0 n).history, ¬ 0 < a) →
      (runEpochs E w0 n).bestAcc = 0 ∧ (runEpochs E w0 n).bestWts = w0 := by
    intro n
    induction n with
    | zero => intro _; exact ⟨rfl, rfl⟩
    | succ n ih =>
      intro hall
      have hh : (runEpochs E w0 (n + 1)).history
          = (runEpochs E w0 n).history
            ++ [epochValAcc E n (runEpochs E w0 n).modelW] := by
        rw [runEpochs_succ, runEpoch_eq]
      have hprev : ∀ a ∈ (runEpochs E w0 n).history, ¬ 0 < a := fun a ha =>
        hall a (by rw [hh]; exact List.mem_append_left _ ha)
      have hA : ¬ 0 < epochValAcc E n (runEpochs E w0 n).modelW :=
        hall _ (by
          rw [hh]
          exact List.mem_append_right _ (List.mem_singleton.mpr rfl))
      obtain ⟨hb0, hbw⟩ := ih hprev
      constructor
      · rw [runEpochs_succ, runEpoch_eq]
        simp [hb0, hA]
      · rw [runEpochs_succ, runEpoch_eq]
        simp [hb0, hA, hbw]
  exact ⟨rfl, rfl, rfl, rfl, (key N h).2⟩

theorem witEnvB_corrects (e : ℕ) (p : Phase) (w : ℕ) :
    (runPhase witEnvB e p w).runningCorrects = 0 := by
  show (processBatch witEnvB e p ⟨w, 0, 0, []⟩ ()).runningCorrects = 0
  rw [processBatch_corrects]
  rfl

theorem witEnvB_valAcc (e : ℕ) (w : ℕ) : epochValAcc witEnvB e w = 0 := by
  unfold epochValAcc
  rw [witEnvB_corrects]
  simp

theorem witEnvB_hyp : ∀ a ∈ (runEpochs witEnvB 5 2).history, ¬ 0 < a := by
  have h2 : runEpochs witEnvB 5 2
      = runEpoch witEnvB 1 (runEpoch witEnvB 0 (initState 5)) := rfl
  have hh : (runEpochs witEnvB 5 2).history = [0, 0] := by
    rw [h2, runEpoch_eq, runEpoch_eq]
    simp [witEnvB_valAcc, initState]
  intro a ha
  rw [hh] at ha
  rcases List.mem_cons.mp ha with rfl | ha
  · exact lt_irrefl 0
  · rw [List.mem_singleton] at ha
    subst ha
    exact lt_irrefl 0

theorem train_model_no_improvement_app :
    (train_model witEnvB 5 2).1 = 5 :=
  (train_model_no_improvement witEnvB 5 2 witEnvB_hyp).2.2.2.2

/-- C10: `train_model` returns the best snapshot's weights (the effect of
the final `model.load_state_dict(best_model_wts)`) together with the
history and nothing else; when the last epoch brings no strict
improvement, the weights it trained are discarded in favour of the best
snapshot of the earlier epochs. -/
theorem train_model_loads_best {W β : Type} (E : LoopEnv W β) (w0 : W) (N : ℕ)
    (h : epochValAcc E N (runEpochs E w0 N).modelW ≤ (runEpochs E w0 N).bestAcc) :
    (∀ M, (train_model E w0 M).1 = (runEpochs E w0 M).bestWts ∧
      (train_model E w0 M).2 = (runEpochs E w0 M).history) ∧
    (train_model E w0 (N + 1)).1 = (runEpochs E w0 N).bestWts ∧
    (train_model E w0 (N + 1)).2
      = (runEpochs E w0 N).history
        ++ [epochValAcc E N (runEpochs E w0 N).modelW] := by
  refine ⟨fun M => ⟨rfl, rfl⟩, ?_, ?_⟩
  · show (runEpochs E w0 (N + 1)).bestWts = _
    rw [runEpochs_succ, runEpoch_eq]
    simp [not_lt.mpr h]
  · show (runEpochs E w0 (N + 1)).history = _
    rw [runEpochs_succ, runEpoch_eq]

theorem witEnvB_no_improve_le :
    epochValAcc witEnvB 1 (runEpochs witEnvB 5 1).modelW
      ≤ (runEpochs witEnvB 5 1).bestAcc := by
  have h1 : runEpochs witEnvB 5 1 = runEpoch witEnvB 0 (initState 5) := rfl
  rw [witEnvB_valAcc, h1, runEpoch_eq]
  simp [witEnvB_valAcc, initState]

theorem train_model_loads_best_app :
    (train_model witEnvB 5 2).1 = (runEpochs witEnvB 5 1).bestWts :=
  (train_model_loads_best witEnvB 5 1 witEnvB_no_improve_le).2.1

end Finetune
